import Mathlib

/-!
Shallow embedding of the `ncurses` matrix-rendering header
(`pierrechevalier83/cursed`), together with theorems settling the frozen
claims about its specification.

Modelling conventions:
* A C++ `std::wstring` is a `List Char`.
* Every call into the curses library (`addwstr`, `addch`, `attron`,
  `attroff`, `start_color`, `init_pair`) is recorded as an `Event`; a
  rendering function returns the list of events it emits, in order.
* C++ `int` quantities that are nonnegative at every call site relevant to
  the claims (`cell_width`, `cell_height`, widths and offsets of the
  alignment helpers) are modelled as `Nat`; color codes and color-pair
  indices are modelled as `Int`.
* The `assert(!data.empty())` inside `n_rows` is modelled by returning
  `Option`: `none` means the assertion fires and nothing is emitted.
-/

namespace Ncurses

/-- One observable interaction with the curses library. -/
inductive Event
  /-- one character written to the screen (via addwstr / addch) -/
  | out (c : Char)
  /-- attron(COLOR_PAIR(n)) -/
  | attronPair (n : Int)
  /-- attron(A_BOLD) -/
  | attronBold
  /-- attroff(COLOR_PAIR(n)) -/
  | attroffPair (n : Int)
  /-- attroff(A_BOLD) -/
  | attroffBold
  /-- start_color() -/
  | startColor
  /-- init_pair(index, fg, bg) -/
  | initPair (index fg bg : Int)
deriving DecidableEq

/-- Source: `void addwstr(...)` as used through the header; writing a wide
string emits its characters in order. -/
def addwstr (s : List Char) : List Event := s.map Event.out

/-- Source: `void n_chars(int n, auto c) { std::wstring s(n, c); addwstr(s.c_str()); }` -/
def n_chars (n : Nat) (c : Char) : List Event := addwstr (List.replicate n c)

/-- Source: `void addwch(const auto character) { n_chars(1, character); }` -/
def addwch (c : Char) : List Event := n_chars 1 c

/-- Source: `void end_line() { addch('\n'); }` -/
def end_line : List Event := [Event.out '\n']

/-- Source:
`auto positioned(const auto& content, auto width, int offset)`:
if `content.length() >= width` the content is returned unchanged, else
`offset` blanks, the content, and `width - (content.length() + offset)`
blanks.  (At every call site relevant to the claims
`offset + content.length() <= width`, so the `size_t` subtraction in the
source never wraps.) -/
def positioned (content : List Char) (width : Nat) (offset : Nat) : List Char :=
  if content.length ≥ width then
    content
  else
    let left := List.replicate offset ' '
    let right := List.replicate (width - (content.length + offset)) ' '
    left ++ content ++ right

/-- Source: `auto centered(const auto& content, auto width)` with
`offset = (width - content.length()) / 2`. -/
def centered (content : List Char) (width : Nat) : List Char :=
  positioned content width ((width - content.length) / 2)

/-- Source: `auto aligned_right(const auto& content, auto width)` with
`offset = width - content.length()`. -/
def aligned_right (content : List Char) (width : Nat) : List Char :=
  positioned content width (width - content.length)

/-- Source: `auto aligned_left(const auto& content, auto width)` with
offset 0. -/
def aligned_left (content : List Char) (width : Nat) : List Char :=
  positioned content width 0

/-- Source: `enum class Aligned { right, left, center };` -/
inductive Aligned
  | right
  | left
  | center
deriving DecidableEq

/-- The string computed by the body of `printline`.  The C++ `switch` on
`alignment` has no `break` statements, so control falls through: the body of
a `case` executes whenever the `switch` entered at its own label or at an
earlier one.  Each executed body overwrites `s`. -/
def printlineStr (content : List Char) (width : Nat) (alignment : Aligned) : List Char :=
  let s : List Char := []
  let s := if alignment = Aligned.right then aligned_right content width else s
  let s := if alignment = Aligned.right ∨ alignment = Aligned.left then
    aligned_left content width else s
  let s := if alignment = Aligned.right ∨ alignment = Aligned.left ∨
      alignment = Aligned.center then centered content width else s
  s

/-- Source: `void printline(const auto& content, int width, Aligned alignment)`
ends with `addwstr(s.c_str())`. -/
def printline (content : List Char) (width : Nat) (alignment : Aligned) : List Event :=
  addwstr (printlineStr content width alignment)

/-- Source: `struct Cell { std::wstring content; int color_code; }` with the
constructor defaulting `color_code` to 0. -/
structure Cell where
  content : List Char
  color_code : Int := 0
deriving DecidableEq

/-- Source: `class Color { int n; }`.  The constructor parameter `n` shadows
this member; the constructor body never assigns it. -/
structure Color where
  n : Int
deriving DecidableEq

/-- Events of the constructor `Color(int n)`:
`attron(COLOR_PAIR(n)); attron(A_BOLD);` (on the parameter `n`). -/
def Color.ctorTrace (n : Int) : List Event :=
  [Event.attronPair n, Event.attronBold]

/-- The object the constructor `Color(int n)` produces.  The parameter `n`
shadows the data member `n` and the body never writes the member, so the
member keeps its indeterminate pre-construction value, modelled here by the
extra argument `g`. -/
def Color.construct (n g : Int) : Color := { n := g }

/-- Events of the destructor `~Color()`:
`attroff(COLOR_PAIR(n)); attroff(A_BOLD);` (on the member `n`). -/
def Color.dtorTrace (c : Color) : List Event :=
  [Event.attroffPair c.n, Event.attroffBold]

/-- Curses constant: `COLOR_BLACK` is 0. -/
def COLOR_BLACK : Int := 0

/-- The loop body of the `ColorScheme` constructor:
`for (const auto& color : scheme) { init_pair(index++, COLOR_BLACK, color); }`.
`index` starts at 0 and is incremented after each registration. -/
def initPairs (index : Int) : List Int → List Event
  | [] => []
  | color :: rest => Event.initPair index COLOR_BLACK color :: initPairs (index + 1) rest

/-- Source: `class ColorScheme { std::vector<int> scheme; }`. -/
structure ColorScheme where
  scheme : List Int
deriving DecidableEq

/-- Events of the `ColorScheme` constructor: `start_color()` followed by one
`init_pair(i, COLOR_BLACK, scheme[i])` per palette entry, in order. -/
def ColorScheme.ctorTrace (scheme : List Int) : List Event :=
  Event.startColor :: initPairs 0 scheme

/-- Source: `struct BoxStyle::Corners` with its default glyphs. -/
structure BoxStyle.Corners where
  top_left : Char := '┏'
  top_right : Char := '┓'
  bottom_left : Char := '┗'
  bottom_right : Char := '┛'
deriving DecidableEq

/-- Source: `struct BoxStyle::Intersections` with its default glyphs. -/
structure BoxStyle.Intersections where
  top : Char := '┳'
  bottom : Char := '┻'
  left : Char := '┣'
  right : Char := '┫'
  center : Char := '╋'
deriving DecidableEq

/-- Source: `struct BoxStyle::Borders` with its default glyphs. -/
structure BoxStyle.Borders where
  horizontal : Char := '━'
  vertical : Char := '┃'
deriving DecidableEq

/-- Source: `struct BoxStyle`. -/
structure BoxStyle where
  corners : BoxStyle.Corners := {}
  intersections : BoxStyle.Intersections := {}
  borders : BoxStyle.Borders := {}
deriving DecidableEq

/-- Source: `struct MatrixStyle`.  Its only constructor takes the two cell
dimensions, leaving `box_style` at its defaults. -/
structure MatrixStyle where
  cell_width : Nat
  cell_height : Nat
  box_style : BoxStyle := {}
deriving DecidableEq

namespace MatrixDisplay

/-- Events emitted for one cell inside the `value_row` loop:
`Color scoped(cell.color_code); printline(cell.content, style.cell_width,
Aligned::center);` — the scope's destructor runs at the end of the loop
body.  `g` models the indeterminate value the never-initialized `Color`
member holds. -/
def cellEvents (style : MatrixStyle) (g : Int) (cell : Cell) : List Event :=
  Color.ctorTrace cell.color_code ++
  printline cell.content style.cell_width Aligned.center ++
  Color.dtorTrace (Color.construct cell.color_code g)

/-- The `first`-flag loop shape used by `value_row` and `print`: the first
item is emitted bare, every later item is preceded by the separator. -/
def joinCells (sep : List Event) : List (List Event) → List Event
  | [] => []
  | x :: xs => x ++ (xs.map fun y => sep ++ y).flatten

/-- Source: `MatrixDisplay::value_row(std::vector<Cell> row, auto left,
auto intersection, auto right)`. -/
def value_row (style : MatrixStyle) (g : Int) (row : List Cell)
    (left intersection right : Char) : List Event :=
  addwch left ++
  joinCells (addwch intersection) (row.map (cellEvents style g)) ++
  addwch right ++
  end_line

/-- Source: `MatrixDisplay::sep_row(int n, auto left, auto plain,
auto intersection, auto right)`: a row of `n` cells whose content is
`cell_width` copies of the `plain` glyph (default color code 0). -/
def sep_row (style : MatrixStyle) (g : Int) (n : Nat)
    (left plain intersection right : Char) : List Event :=
  value_row style g
    (List.replicate n { content := List.replicate style.cell_width plain })
    left intersection right

/-- Source: `MatrixDisplay::top_row(int n)`. -/
def top_row (style : MatrixStyle) (g : Int) (n : Nat) : List Event :=
  sep_row style g n style.box_style.corners.top_left
    style.box_style.borders.horizontal style.box_style.intersections.top
    style.box_style.corners.top_right

/-- Source: `MatrixDisplay::bottom_row(int n)`. -/
def bottom_row (style : MatrixStyle) (g : Int) (n : Nat) : List Event :=
  sep_row style g n style.box_style.corners.bottom_left
    style.box_style.borders.horizontal style.box_style.intersections.bottom
    style.box_style.corners.bottom_right

/-- Source: `MatrixDisplay::middle_row(int n)`. -/
def middle_row (style : MatrixStyle) (g : Int) (n : Nat) : List Event :=
  sep_row style g n style.box_style.intersections.left
    style.box_style.borders.horizontal style.box_style.intersections.center
    style.box_style.intersections.right

/-- Source: `MatrixDisplay::values(const std::vector<Cell>& row)`:
`top_pad = (cell_height - 1) / 2` blank value rows, the content value row,
then `cell_height - (top_pad + 1)` blank value rows, all bracketed by the
vertical border glyph. -/
def values (style : MatrixStyle) (g : Int) (row : List Cell) : List Event :=
  let padding_row := row.map fun cell =>
    { cell with content := List.replicate style.cell_width ' ' }
  let line_height := 1
  let top_pad := (style.cell_height - line_height) / 2
  let v := style.box_style.borders.vertical
  (List.replicate top_pad (value_row style g padding_row v v v)).flatten ++
  value_row style g row v v v ++
  (List.replicate (style.cell_height - (top_pad + line_height))
    (value_row style g padding_row v v v)).flatten

/-- Source: `MatrixDisplay::n_rows`: `assert(!data.empty()); return
data[0].size();`.  The assertion firing is the `none` case; note the value
returned is the size of the FIRST ROW, i.e. the column count. -/
def n_rows : List (List Cell) → Option Nat
  | [] => none
  | r :: _ => some r.length

/-- Source: `MatrixDisplay::width_in_chars`:
`(style.cell_width + 1) * n_rows(data)`. -/
def width_in_chars (style : MatrixStyle) (data : List (List Cell)) : Option Nat :=
  (n_rows data).map fun n => (style.cell_width + 1) * n

/-- Source: `MatrixDisplay::print`: `n_rows` (whose assertion fires on the
empty matrix, before anything is emitted), the top border, the first row's
values, then for each later row a middle separator row followed by its
values, and the bottom border. -/
def print (style : MatrixStyle) (g : Int) (data : List (List Cell)) :
    Option (List Event) :=
  match data with
  | [] => none
  | r0 :: rest =>
    let n := r0.length
    some (top_row style g n ++
      values style g r0 ++
      (rest.map fun r => middle_row style g n ++ values style g r).flatten ++
      bottom_row style g n)

end MatrixDisplay

/-! ### Observation helpers over event traces -/

/-- The characters a trace writes to the screen, in order. -/
def outChars (tr : List Event) : List Char :=
  tr.filterMap fun e =>
    match e with
    | Event.out c => some c
    | _ => none

/-- Is the event a color-attribute activation (attron of a pair or of bold)? -/
def isActivation : Event → Bool
  | Event.attronPair _ => true
  | Event.attronBold => true
  | _ => false

/-- Is the event a color-attribute deactivation (attroff of a pair or of bold)? -/
def isDeactivation : Event → Bool
  | Event.attroffPair _ => true
  | Event.attroffBold => true
  | _ => false

/-- Number of color-attribute activations in a trace. -/
def nActivations (tr : List Event) : Nat := (tr.filter isActivation).length

/-- Number of color-attribute deactivations in a trace. -/
def nDeactivations (tr : List Event) : Nat := (tr.filter isDeactivation).length

/-- Character-level analogue of `MatrixDisplay.joinCells`. -/
def joinChars (sep : List Char) : List (List Char) → List Char
  | [] => []
  | x :: xs => x ++ (xs.map fun y => sep ++ y).flatten

/-! ### Basic lemmas -/

theorem printlineStr_eq_centered (content : List Char) (width : Nat)
    (alignment : Aligned) :
    printlineStr content width alignment = centered content width := by
  cases alignment <;> simp [printlineStr]

theorem centered_of_length_ge (content : List Char) (width : Nat)
    (h : width ≤ content.length) : centered content width = content := by
  simp [centered, positioned, h]

/-! ### Claim C2 -/

/-- Claim C2: for every content string, width and offset with
`offset + content.length <= width`: if `content.length >= width` then
`positioned` returns the content unchanged (never truncates); otherwise it
returns a string of exactly `width` characters consisting of `offset`
blanks, the content, then `width - (content.length + offset)` trailing
blanks. -/
theorem positioned_spec (content : List Char) (width offset : Nat)
    (h : offset + content.length ≤ width) :
    (content.length ≥ width → positioned content width offset = content) ∧
    (content.length < width →
      (positioned content width offset).length = width ∧
      positioned content width offset =
        List.replicate offset ' ' ++ content ++
          List.replicate (width - (content.length + offset)) ' ') := by
  constructor
  · intro hge
    simp [positioned, hge]
  · intro hlt
    have hcond : ¬ content.length ≥ width := by omega
    refine ⟨?_, by simp [positioned, hcond]⟩
    simp [positioned, hcond]
    omega

/-- Witness for C2 at content "AB", width 5, offset 1. -/
theorem positioned_spec_witness :
    (positioned ['A', 'B'] 5 1).length = 5 :=
  ((positioned_spec ['A', 'B'] 5 1 (by decide)).2 (by decide)).1

/-! ### Claim C3 -/

/-- Claim C3: for content shorter than the width, `centered` places the
content at offset `(width - length) / 2` (floor division), so the odd
remainder blank goes to the right; concretely `centered "AB" 6` has two
leading and two trailing blanks and `centered "ABC" 6` has one leading and
two trailing blanks. -/
theorem centered_spec :
    (∀ (content : List Char) (width : Nat), content.length < width →
      centered content width =
        List.replicate ((width - content.length) / 2) ' ' ++ content ++
          List.replicate
            (width - content.length - (width - content.length) / 2) ' ') ∧
    centered ['A', 'B'] 6 = [' ', ' ', 'A', 'B', ' ', ' '] ∧
    centered ['A', 'B', 'C'] 6 = [' ', 'A', 'B', 'C', ' ', ' '] := by
  refine ⟨?_, rfl, rfl⟩
  intro content width hlt
  have hcond : ¬ content.length ≥ width := by omega
  have hcount : width - (content.length + (width - content.length) / 2) =
      width - content.length - (width - content.length) / 2 := by omega
  simp [centered, positioned, hcond, hcount]

/-- Witness for C3 at content "X", width 3. -/
theorem centered_spec_witness : centered ['X'] 3 = [' ', 'X', ' '] := by
  have h := centered_spec.1 ['X'] 3 (by decide)
  rw [h]
  rfl

/-! ### Claim C10 -/

/-- Claim C10: because the alignment switch in `printline` has no `break`
statements, every case falls through to the `center` case, so `printline`
always emits the centered string, whatever alignment was requested. -/
theorem printline_always_centered (content : List Char) (width : Nat)
    (alignment : Aligned) :
    printline content width alignment = addwstr (centered content width) := by
  rw [printline, printlineStr_eq_centered]

/-- Witness for C10 at a concrete input with alignment `right`. -/
theorem printline_always_centered_witness :
    printline ['h', 'i'] 4 Aligned.right = addwstr (centered ['h', 'i'] 4) :=
  printline_always_centered ['h', 'i'] 4 Aligned.right

/-! ### Claim C5 -/

/-- Claim C5 (evaluating the buggy code at a failing input): constructing
`Color scoped(5)` over memory where the member previously held 7 activates
pair 5 then bold, but the destructor deactivates pair 7 — the member the
constructor never initialized — and deactivates the pair BEFORE bold, the
same order as activation, contradicting the claim that the same pair `n` is
deactivated and that deactivation happens in reverse order. -/
theorem color_dtor_bug :
    Color.ctorTrace 5 = [Event.attronPair 5, Event.attronBold] ∧
    Color.dtorTrace (Color.construct 5 7) =
      [Event.attroffPair 7, Event.attroffBold] ∧
    Color.dtorTrace (Color.construct 5 7) ≠
      [Event.attroffBold, Event.attroffPair 5] := by
  refine ⟨rfl, rfl, ?_⟩
  decide

/-! ### Claim C6 -/

/-- Claim C6 counterexample: for the one-entry palette [1] (1 is the curses
identifier of red), the constructor emits `init_pair(0, COLOR_BLACK, 1)` —
black FOREGROUND on background color 1 — and not
`init_pair(0, 1, COLOR_BLACK)`, which is what "palette entry i is the
displayed color on a black background" would require. -/
theorem colorScheme_fg_bg_counterexample :
    ColorScheme.ctorTrace [1] =
      [Event.startColor, Event.initPair 0 COLOR_BLACK 1] ∧
    ColorScheme.ctorTrace [1] ≠
      [Event.startColor, Event.initPair 0 1 COLOR_BLACK] := by
  refine ⟨rfl, ?_⟩
  decide

theorem initPairs_length (index : Int) (scheme : List Int) :
    (initPairs index scheme).length = scheme.length := by
  induction scheme generalizing index with
  | nil => rfl
  | cons color rest ih => simp [initPairs, ih]

theorem initPairs_getElem (index : Int) (scheme : List Int) (i : Nat)
    (h : i < scheme.length) :
    (initPairs index scheme)[i]? =
      some (Event.initPair (index + i) COLOR_BLACK (scheme.get ⟨i, h⟩)) := by
  induction scheme generalizing index i with
  | nil => simp at h
  | cons color rest ih =>
    cases i with
    | zero => simp [initPairs]
    | succ j =>
      have hj : j < rest.length := by simpa using h
      have := ih (index + 1) j hj
      simp only [initPairs, List.getElem?_cons_succ, this, List.get_eq_getElem]
      congr 2
      push_cast
      ring

/-- Claim C6 amended: constructing a `ColorScheme` from a palette emits
`start_color` and then registers, for every index `i` in order, color-pair
`i` with BLACK as the foreground and palette entry `i` as the background
(black text on the palette color), not the palette color on black. -/
theorem colorScheme_spec (scheme : List Int) (i : Nat)
    (h : i < scheme.length) :
    (ColorScheme.ctorTrace scheme).length = scheme.length + 1 ∧
    (ColorScheme.ctorTrace scheme).head? = some Event.startColor ∧
    (ColorScheme.ctorTrace scheme)[i + 1]? =
      some (Event.initPair i COLOR_BLACK (scheme.get ⟨i, h⟩)) := by
  refine ⟨by simp [ColorScheme.ctorTrace, initPairs_length], rfl, ?_⟩
  have := initPairs_getElem 0 scheme i h
  simpa [ColorScheme.ctorTrace] using this

/-- Witness for the amended C6 at the palette [2, 4], index 1. -/
theorem colorScheme_spec_witness :
    (ColorScheme.ctorTrace [2, 4])[2]? =
      some (Event.initPair 1 COLOR_BLACK 4) :=
  (colorScheme_spec [2, 4] 1 (by decide)).2.2

/-! ### Claim C7 -/

/-- Claim C7 counterexample: for a matrix with ONE row of TWO cells and
`cell_width = 3`, `width_in_chars` returns `(3 + 1) * 2 = 8`, not
`(3 + 1) * 1` as "multiplied by the matrix's row count" would require. -/
theorem width_in_chars_counterexample :
    MatrixDisplay.width_in_chars ⟨3, 1, {}⟩
        [[{ content := [] }, { content := [] }]] = some 8 ∧
    some ((3 + 1) *
        ([[{ content := ([] : List Char) }, { content := [] }]] :
          List (List Cell)).length) = some 4 := by
  constructor <;> rfl

/-- Claim C7 amended: for every non-empty matrix, `width_in_chars` returns
`(cell_width + 1)` multiplied by the length of the FIRST ROW, i.e. the
column count — the helper `n_rows`, despite its name, returns
`data[0].size()`. -/
theorem width_in_chars_spec (style : MatrixStyle) (r : List Cell)
    (rest : List (List Cell)) :
    MatrixDisplay.width_in_chars style (r :: rest) =
      some ((style.cell_width + 1) * r.length) := rfl

/-- Witness for the amended C7 at a concrete 1-row, 1-column matrix. -/
theorem width_in_chars_spec_witness :
    MatrixDisplay.width_in_chars ⟨2, 1, {}⟩ [[{ content := [] }]] =
      some ((2 + 1) * 1) :=
  width_in_chars_spec ⟨2, 1, {}⟩ [{ content := [] }] []

/-! ### Claim C8 -/

/-- Claim C8 counterexample: a matrix consisting of one EMPTY row passes the
assertion and `print` renders output, refuting the reading that the fatal
check requires every row to be non-empty. -/
theorem print_empty_row_counterexample :
    (MatrixDisplay.print ⟨3, 1, {}⟩ 0 [([] : List Cell)]).isSome = true := rfl

/-- Claim C8 amended: the fatal assertion inside `n_rows`, reached before
anything is rendered, checks only that the matrix has at least one row;
`print` aborts with no output exactly on the empty matrix (rows themselves
are not checked for non-emptiness). -/
theorem print_assert_spec (style : MatrixStyle) (g : Int)
    (data : List (List Cell)) :
    (MatrixDisplay.print style g data = none ↔ data = []) ∧
    (MatrixDisplay.n_rows data = none ↔ data = []) := by
  cases data <;> simp [MatrixDisplay.print, MatrixDisplay.n_rows]

/-- Witness for the amended C8: on the empty matrix `print` emits nothing. -/
theorem print_assert_spec_witness :
    MatrixDisplay.print ⟨3, 1, {}⟩ 0 [] = none :=
  (print_assert_spec ⟨3, 1, {}⟩ 0 []).1.mpr rfl

/-! ### Trace-observation lemmas -/

theorem outChars_append (a b : List Event) :
    outChars (a ++ b) = outChars a ++ outChars b := by
  simp [outChars]

theorem outChars_flatten (ls : List (List Event)) :
    outChars ls.flatten = (ls.map outChars).flatten := by
  induction ls with
  | nil => rfl
  | cons x xs ih => simp [List.flatten_cons, outChars_append, ih]

theorem outChars_map_out (s : List Char) : outChars (s.map Event.out) = s := by
  induction s with
  | nil => rfl
  | cons c cs ih => simpa [outChars, List.filterMap_cons] using ih

theorem outChars_addwstr (s : List Char) : outChars (addwstr s) = s :=
  outChars_map_out s

theorem outChars_addwch (c : Char) : outChars (addwch c) = [c] := rfl

theorem outChars_end_line : outChars end_line = ['\n'] := rfl

theorem outChars_ctorTrace (n : Int) : outChars (Color.ctorTrace n) = [] := rfl

theorem outChars_dtorTrace (c : Color) : outChars (Color.dtorTrace c) = [] := rfl

theorem outChars_cellEvents (style : MatrixStyle) (g : Int) (cell : Cell) :
    outChars (MatrixDisplay.cellEvents style g cell) =
      centered cell.content style.cell_width := by
  simp [MatrixDisplay.cellEvents, outChars_append, outChars_ctorTrace,
    outChars_dtorTrace, printline, outChars_addwstr, printlineStr_eq_centered]

theorem outChars_joinCells (sep : List Event) (items : List (List Event)) :
    outChars (MatrixDisplay.joinCells sep items) =
      joinChars (outChars sep) (items.map outChars) := by
  cases items with
  | nil => rfl
  | cons x xs =>
    have hflat : ∀ (ys : List (List Event)),
        outChars ((ys.map fun y => sep ++ y).flatten) =
          ((ys.map outChars).map fun y => outChars sep ++ y).flatten := by
      intro ys
      induction ys with
      | nil => rfl
      | cons y ys ih => simp [List.flatten_cons, outChars_append, ih]
    simp [MatrixDisplay.joinCells, joinChars, outChars_append, hflat]

theorem outChars_value_row (style : MatrixStyle) (g : Int) (row : List Cell)
    (l i r : Char) :
    outChars (MatrixDisplay.value_row style g row l i r) =
      [l] ++
        joinChars [i] (row.map fun c => centered c.content style.cell_width) ++
        [r, '\n'] := by
  have hmap : outChars ∘ MatrixDisplay.cellEvents style g =
      fun c => centered c.content style.cell_width :=
    funext fun c => outChars_cellEvents style g c
  simp [MatrixDisplay.value_row, outChars_append, outChars_joinCells,
    outChars_addwch, outChars_end_line, List.map_map, hmap]

/-! ### Activation / deactivation counting lemmas -/

theorem nAct_append (a b : List Event) :
    nActivations (a ++ b) = nActivations a + nActivations b := by
  simp [nActivations]

theorem nDeact_append (a b : List Event) :
    nDeactivations (a ++ b) = nDeactivations a + nDeactivations b := by
  simp [nDeactivations]

theorem nAct_map_out (s : List Char) : nActivations (s.map Event.out) = 0 := by
  induction s with
  | nil => rfl
  | cons c cs ih => simpa [nActivations, List.filter_cons, isActivation] using ih

theorem nDeact_map_out (s : List Char) :
    nDeactivations (s.map Event.out) = 0 := by
  induction s with
  | nil => rfl
  | cons c cs ih =>
    simpa [nDeactivations, List.filter_cons, isDeactivation] using ih

theorem nAct_addwstr (s : List Char) : nActivations (addwstr s) = 0 :=
  nAct_map_out s

theorem nDeact_addwstr (s : List Char) : nDeactivations (addwstr s) = 0 :=
  nDeact_map_out s

theorem nAct_addwch (c : Char) : nActivations (addwch c) = 0 := rfl

theorem nDeact_addwch (c : Char) : nDeactivations (addwch c) = 0 := rfl

theorem nAct_end_line : nActivations end_line = 0 := rfl

theorem nDeact_end_line : nDeactivations end_line = 0 := rfl

theorem nAct_ctorTrace (n : Int) : nActivations (Color.ctorTrace n) = 2 := rfl

theorem nDeact_ctorTrace (n : Int) :
    nDeactivations (Color.ctorTrace n) = 0 := rfl

theorem nAct_dtorTrace (c : Color) : nActivations (Color.dtorTrace c) = 0 := rfl

theorem nDeact_dtorTrace (c : Color) :
    nDeactivations (Color.dtorTrace c) = 2 := rfl

theorem cell_balanced (style : MatrixStyle) (g : Int) (cell : Cell) :
    nActivations (MatrixDisplay.cellEvents style g cell) =
      nDeactivations (MatrixDisplay.cellEvents style g cell) := by
  simp [MatrixDisplay.cellEvents, nAct_append, nDeact_append, printline,
    nAct_addwstr, nDeact_addwstr, nAct_ctorTrace, nDeact_ctorTrace,
    nAct_dtorTrace, nDeact_dtorTrace]

theorem balanced_flatten (ls : List (List Event))
    (h : ∀ l ∈ ls, nActivations l = nDeactivations l) :
    nActivations ls.flatten = nDeactivations ls.flatten := by
  induction ls with
  | nil => rfl
  | cons x xs ih =>
    simp only [List.flatten_cons, nAct_append, nDeact_append]
    rw [h x (by simp), ih (fun l hl => h l (by simp [hl]))]

theorem balanced_joinCells (sep : List Event) (items : List (List Event))
    (hsep : nActivations sep = nDeactivations sep)
    (hitems : ∀ l ∈ items, nActivations l = nDeactivations l) :
    nActivations (MatrixDisplay.joinCells sep items) =
      nDeactivations (MatrixDisplay.joinCells sep items) := by
  cases items with
  | nil => rfl
  | cons x xs =>
    simp only [MatrixDisplay.joinCells, nAct_append, nDeact_append]
    have hx := hitems x (by simp)
    have hflat : nActivations ((xs.map fun y => sep ++ y).flatten) =
        nDeactivations ((xs.map fun y => sep ++ y).flatten) := by
      apply balanced_flatten
      intro l hl
      obtain ⟨y, hy, rfl⟩ := List.mem_map.mp hl
      rw [nAct_append, nDeact_append, hsep, hitems y (by simp [hy])]
    omega

theorem value_row_balanced (style : MatrixStyle) (g : Int) (row : List Cell)
    (l i r : Char) :
    nActivations (MatrixDisplay.value_row style g row l i r) =
      nDeactivations (MatrixDisplay.value_row style g row l i r) := by
  have hjoin : nActivations
      (MatrixDisplay.joinCells (addwch i)
        (row.map (MatrixDisplay.cellEvents style g))) =
      nDeactivations
      (MatrixDisplay.joinCells (addwch i)
        (row.map (MatrixDisplay.cellEvents style g))) := by
    apply balanced_joinCells
    · rfl
    · intro l hl
      obtain ⟨c, hc, rfl⟩ := List.mem_map.mp hl
      exact cell_balanced style g c
  simp [MatrixDisplay.value_row, nAct_append, nDeact_append, nAct_addwch,
    nDeact_addwch, nAct_end_line, nDeact_end_line, hjoin]

theorem sep_row_balanced (style : MatrixStyle) (g : Int) (n : Nat)
    (l p i r : Char) :
    nActivations (MatrixDisplay.sep_row style g n l p i r) =
      nDeactivations (MatrixDisplay.sep_row style g n l p i r) :=
  value_row_balanced style g _ l i r

theorem top_row_balanced (style : MatrixStyle) (g : Int) (n : Nat) :
    nActivations (MatrixDisplay.top_row style g n) =
      nDeactivations (MatrixDisplay.top_row style g n) :=
  sep_row_balanced style g n _ _ _ _

theorem bottom_row_balanced (style : MatrixStyle) (g : Int) (n : Nat) :
    nActivations (MatrixDisplay.bottom_row style g n) =
      nDeactivations (MatrixDisplay.bottom_row style g n) :=
  sep_row_balanced style g n _ _ _ _

theorem middle_row_balanced (style : MatrixStyle) (g : Int) (n : Nat) :
    nActivations (MatrixDisplay.middle_row style g n) =
      nDeactivations (MatrixDisplay.middle_row style g n) :=
  sep_row_balanced style g n _ _ _ _

theorem values_balanced (style : MatrixStyle) (g : Int) (row : List Cell) :
    nActivations (MatrixDisplay.values style g row) =
      nDeactivations (MatrixDisplay.values style g row) := by
  have hrep : ∀ (k : Nat) (L : List Event),
      nActivations L = nDeactivations L →
      nActivations (List.replicate k L).flatten =
        nDeactivations (List.replicate k L).flatten := by
    intro k L hL
    exact balanced_flatten _
      (fun l hl => by rw [List.eq_of_mem_replicate hl]; exact hL)
  simp only [MatrixDisplay.values, nAct_append, nDeact_append]
  rw [hrep _ _ (value_row_balanced style g _ _ _ _),
    hrep _ _ (value_row_balanced style g _ _ _ _),
    value_row_balanced style g row _ _ _]

/-! ### Claim C9 -/

/-- Claim C9: over the full trace of a single `print` call on any matrix
that passes the assertion, the number of color-attribute activations
(attron of a pair or of bold) equals the number of deactivations — every
Color scope opened during rendering is closed inside the trace. -/
theorem print_color_balanced (style : MatrixStyle) (g : Int)
    (data : List (List Cell)) (tr : List Event)
    (h : MatrixDisplay.print style g data = some tr) :
    nActivations tr = nDeactivations tr := by
  cases data with
  | nil => simp [MatrixDisplay.print] at h
  | cons r0 rest =>
    simp only [MatrixDisplay.print, Option.some.injEq] at h
    subst h
    simp only [nAct_append, nDeact_append]
    have hmid : nActivations
        ((rest.map fun r => MatrixDisplay.middle_row style g r0.length ++
          MatrixDisplay.values style g r).flatten) =
        nDeactivations
        ((rest.map fun r => MatrixDisplay.middle_row style g r0.length ++
          MatrixDisplay.values style g r).flatten) := by
      apply balanced_flatten
      intro l hl
      obtain ⟨r, hr, rfl⟩ := List.mem_map.mp hl
      rw [nAct_append, nDeact_append, middle_row_balanced, values_balanced]
    rw [top_row_balanced, bottom_row_balanced, values_balanced, hmid]

/-- Witness for C9 at a concrete 1-by-1 matrix. -/
theorem print_color_balanced_witness :
    nActivations
      ((MatrixDisplay.print ⟨1, 1, {}⟩ 0 [[{ content := ['x'] }]]).getD []) =
    nDeactivations
      ((MatrixDisplay.print ⟨1, 1, {}⟩ 0 [[{ content := ['x'] }]]).getD []) :=
  print_color_balanced ⟨1, 1, {}⟩ 0 [[{ content := ['x'] }]] _ rfl

/-! ### Membership and newline-counting lemmas -/

theorem mem_positioned {ch : Char} {content : List Char} {width offset : Nat}
    (h : ch ∈ positioned content width offset) : ch ∈ content ∨ ch = ' ' := by
  unfold positioned at h
  split at h
  · exact Or.inl h
  · simp only [List.mem_append, List.mem_replicate] at h
    rcases h with (h | h) | h
    · exact Or.inr h.2
    · exact Or.inl h
    · exact Or.inr h.2

theorem mem_centered {ch : Char} {content : List Char} {width : Nat}
    (h : ch ∈ centered content width) : ch ∈ content ∨ ch = ' ' :=
  mem_positioned h

theorem mem_joinChars {ch : Char} {sep : List Char} {items : List (List Char)}
    (h : ch ∈ joinChars sep items) : ch ∈ sep ∨ ∃ l ∈ items, ch ∈ l := by
  cases items with
  | nil => simp [joinChars] at h
  | cons x xs =>
    simp only [joinChars, List.mem_append] at h
    rcases h with h | h
    · exact Or.inr ⟨x, by simp, h⟩
    · rw [List.mem_flatten] at h
      obtain ⟨l, hl, hch⟩ := h
      obtain ⟨y, hy, rfl⟩ := List.mem_map.mp hl
      rcases List.mem_append.mp hch with h | h
      · exact Or.inl h
      · exact Or.inr ⟨y, by simp [hy], h⟩

theorem count_flatten_replicate (n : Nat) (l : List Char) (a : Char) :
    ((List.replicate n l).flatten).count a = n * l.count a := by
  induction n with
  | zero => simp
  | succ k ih =>
    simp [List.replicate_succ, List.flatten_cons, List.count_append, ih]
    ring

theorem map_const_eq_replicate {α β : Type} (l : List α) (b : β) :
    (l.map fun _ => b) = List.replicate l.length b := by
  induction l <;> simp [*, List.replicate_succ]

/-! ### Claim C4 -/

/-- Claim C4: a data row expands into exactly `cell_height` value-lines:
`top_pad = (cell_height - 1) / 2` blank lines, then exactly one content
line, then `bottom_pad = cell_height - 1 - top_pad` blank lines (floor
division, remainder to the bottom), every line bracketed by the vertical
border glyph and terminated by a newline; in total exactly `cell_height`
newline characters are emitted. -/
theorem values_spec (w h : Nat) (g : Int) (row : List Cell)
    (hh : 1 ≤ h) (hnl : ∀ c ∈ row, '\n' ∉ c.content) :
    outChars (MatrixDisplay.values ⟨w, h, {}⟩ g row) =
      (List.replicate ((h - 1) / 2)
        (['┃'] ++
          joinChars ['┃']
            (List.replicate row.length (List.replicate w ' ')) ++
          ['┃', '\n'])).flatten ++
      (['┃'] ++
        joinChars ['┃'] (row.map fun c => centered c.content w) ++
        ['┃', '\n']) ++
      (List.replicate (h - 1 - (h - 1) / 2)
        (['┃'] ++
          joinChars ['┃']
            (List.replicate row.length (List.replicate w ' ')) ++
          ['┃', '\n'])).flatten ∧
    (outChars (MatrixDisplay.values ⟨w, h, {}⟩ g row)).count '\n' = h := by
  have hpadmap :
      ((row.map fun cell =>
          { cell with content := List.replicate w ' ' }).map
        fun c => centered c.content w) =
      List.replicate row.length (List.replicate w ' ') := by
    rw [List.map_map]
    have hfun : ((fun c : Cell => centered c.content w) ∘ fun cell : Cell =>
        { cell with content := List.replicate w ' ' }) =
        fun _ : Cell => List.replicate w ' ' :=
      funext fun cell => centered_of_length_ge _ _ (by simp)
    rw [hfun, map_const_eq_replicate]
  have hbp : h - ((h - 1) / 2 + 1) = h - 1 - (h - 1) / 2 := by omega
  have hmain : outChars (MatrixDisplay.values ⟨w, h, {}⟩ g row) =
      (List.replicate ((h - 1) / 2)
        (['┃'] ++
          joinChars ['┃']
            (List.replicate row.length (List.replicate w ' ')) ++
          ['┃', '\n'])).flatten ++
      (['┃'] ++
        joinChars ['┃'] (row.map fun c => centered c.content w) ++
        ['┃', '\n']) ++
      (List.replicate (h - 1 - (h - 1) / 2)
        (['┃'] ++
          joinChars ['┃']
            (List.replicate row.length (List.replicate w ' ')) ++
          ['┃', '\n'])).flatten := by
    simp only [MatrixDisplay.values, outChars_append, outChars_flatten,
      List.map_replicate, outChars_value_row, hpadmap]
    rw [hbp]
  have hblankJ : (joinChars ['┃']
      (List.replicate row.length (List.replicate w ' '))).count '\n' = 0 := by
    apply List.count_eq_zero.mpr
    intro hm
    rcases mem_joinChars hm with hs | ⟨l, hl, hc⟩
    · exact absurd (List.mem_singleton.mp hs) (by decide)
    · rw [List.eq_of_mem_replicate hl] at hc
      exact absurd (List.eq_of_mem_replicate hc) (by decide)
  have hcontJ : (joinChars ['┃']
      (row.map fun c => centered c.content w)).count '\n' = 0 := by
    apply List.count_eq_zero.mpr
    intro hm
    rcases mem_joinChars hm with hs | ⟨l, hl, hc⟩
    · exact absurd (List.mem_singleton.mp hs) (by decide)
    · obtain ⟨c, hcrow, rfl⟩ := List.mem_map.mp hl
      rcases mem_centered hc with hin | hsp
      · exact hnl c hcrow hin
      · exact absurd hsp (by decide)
  refine ⟨hmain, ?_⟩
  rw [hmain]
  have hblank : (['┃'] ++
      joinChars ['┃'] (List.replicate row.length (List.replicate w ' ')) ++
      ['┃', '\n']).count '\n' = 1 := by
    simp only [List.count_append, hblankJ]
    decide
  have hcl : (['┃'] ++
      joinChars ['┃'] (row.map fun c => centered c.content w) ++
      ['┃', '\n']).count '\n' = 1 := by
    simp only [List.count_append, hcontJ]
    decide
  rw [List.count_append, List.count_append, count_flatten_replicate,
    count_flatten_replicate, hblank, hcl]
  omega

/-- Witness for C4 at cell_height 3, cell_width 1 and a one-cell row:
3 value-lines, so 3 newline characters. -/
theorem values_spec_witness :
    (outChars (MatrixDisplay.values ⟨1, 3, {}⟩ 0
      [{ content := ['x'] }])).count '\n' = 3 :=
  (values_spec 1 3 0 [{ content := ['x'] }] (by decide) (by decide)).2

/-! ### Claim C1 -/

/-- Claim C1: printing a 1-row, 1-column matrix with cell_width 3 and
cell_height 1 emits exactly 3 output lines — a top border line, one content
line bracketed by vertical glyphs, and a bottom border line — where each
border line is a corner glyph, exactly 3 horizontal glyphs, and a closing
corner glyph (2 corner glyphs per border line); exactly 3 newline
characters are written. -/
theorem print_1x1_spec (content : List Char) (color g : Int)
    (h : '\n' ∉ content) :
    (MatrixDisplay.print ⟨3, 1, {}⟩ g
        [[{ content := content, color_code := color }]]).map outChars =
      some ((['┏'] ++ List.replicate 3 '━' ++ ['┓', '\n']) ++
        (['┃'] ++ centered content 3 ++ ['┃', '\n']) ++
        (['┗'] ++ List.replicate 3 '━' ++ ['┛', '\n'])) ∧
    (MatrixDisplay.print ⟨3, 1, {}⟩ g
        [[{ content := content, color_code := color }]]).map
      (fun tr => (outChars tr).count '\n') = some 3 := by
  have h3 : centered ['━', '━', '━'] 3 = ['━', '━', '━'] :=
    centered_of_length_ge _ _ (by simp)
  have hmain : (MatrixDisplay.print ⟨3, 1, {}⟩ g
      [[{ content := content, color_code := color }]]).map outChars =
      some ((['┏'] ++ List.replicate 3 '━' ++ ['┓', '\n']) ++
        (['┃'] ++ centered content 3 ++ ['┃', '\n']) ++
        (['┗'] ++ List.replicate 3 '━' ++ ['┛', '\n'])) := by
    simp [MatrixDisplay.print, MatrixDisplay.top_row, MatrixDisplay.bottom_row,
      MatrixDisplay.sep_row, MatrixDisplay.values, outChars_append,
      outChars_value_row, outChars_flatten, joinChars, h3]
  have hcount0 : (centered content 3).count '\n' = 0 := by
    apply List.count_eq_zero.mpr
    intro hm
    rcases mem_centered hm with hin | hsp
    · exact h hin
    · exact absurd hsp (by decide)
  refine ⟨hmain, ?_⟩
  have hstep : (MatrixDisplay.print ⟨3, 1, {}⟩ g
      [[{ content := content, color_code := color }]]).map
        (fun tr => (outChars tr).count '\n') =
      ((MatrixDisplay.print ⟨3, 1, {}⟩ g
        [[{ content := content, color_code := color }]]).map outChars).map
        (fun s => s.count '\n') := rfl
  rw [hstep, hmain]
  have htotal : ((['┏'] ++ List.replicate 3 '━' ++ ['┓', '\n']) ++
      (['┃'] ++ centered content 3 ++ ['┃', '\n']) ++
      (['┗'] ++ List.replicate 3 '━' ++ ['┛', '\n'])).count '\n' = 3 := by
    simp only [List.count_append, hcount0]
    decide
  simp only [Option.map_some']
  rw [htotal]

/-- Witness for C1 at the concrete content "42". -/
theorem print_1x1_spec_witness :
    (MatrixDisplay.print ⟨3, 1, {}⟩ 9
        [[{ content := ['4', '2'], color_code := 1 }]]).map
      (fun tr => (outChars tr).count '\n') = some 3 :=
  (print_1x1_spec ['4', '2'] 1 9 (by decide)).2

end Ncurses
